import Mathlib

/-!
# Verification of the dask_cugraph locality / rank dispatch layer

Shallow embedding of `src/dask_cugraph.py` (the multi-worker pagerank
dispatch prototype).  Strings from the Python code are modelled as
`List Char`; Python exceptions are modelled with `Except` / explicit
error constructors; the dask scheduler's answers (`who_has`,
`has_what().keys()`, the result of a pinned `get_rank` task, the
resolution of a submitted compute future) are inputs to the model,
since they come from the external scheduler collaborator.
-/

set_option autoImplicit false

namespace DaskCugraph

/-! ## Python `int(str)` -/

/-- One decimal digit, as accepted by Python `int`.  (Non-ASCII unicode
numerals accepted by CPython are not modelled.) -/
def isPyDigit (c : Char) : Bool := c.isDigit

/-- Numeric value of a digit character. -/
def digitVal (c : Char) : Nat := c.toNat - Char.toNat '0'

/-- Whitespace stripped by Python `int` around a numeric literal. -/
def isPySpace (c : Char) : Bool :=
  c == ' ' || c == '\t' || c == '\n' || c == '\x0d' || c == '\x0b' || c == '\x0c'

/-- A valid unsigned digit run for Python `int`: digits with single
underscores allowed strictly between digits. -/
def udigitsOk : List Char → Bool
  | [] => false
  | [c] => isPyDigit c
  | c :: d :: rest =>
    if d = '_' then isPyDigit c && udigitsOk rest
    else isPyDigit c && udigitsOk (d :: rest)

/-- Value of a digit run (underscores are separators and carry no value). -/
def udigitsVal (l : List Char) : Nat :=
  (l.filter (fun c => c != '_')).foldl (fun a c => 10 * a + digitVal c) 0

/-- Strip Python-`int` whitespace from both ends. -/
def pyStrip (l : List Char) : List Char :=
  ((l.dropWhile isPySpace).reverse.dropWhile isPySpace).reverse

/-- Model of Python `int(s)` on a string: optional surrounding whitespace,
optional sign, then a digit run.  Returns `none` where CPython raises
`ValueError`.  Note a *negative* literal is accepted. -/
def pyInt (l : List Char) : Option Int :=
  match pyStrip l with
  | '+' :: rest => if udigitsOk rest then some (udigitsVal rest) else none
  | '-' :: rest => if udigitsOk rest then some (-(udigitsVal rest : Int)) else none
  | rest => if udigitsOk rest then some (udigitsVal rest) else none

/-! ## `parse_host_port` (src/dask_cugraph.py lines 53-58)

```python
def parse_host_port(address):
    if '://' in address:
        address = address.rsplit('://', 1)[1]
    host, port = address.split(':')
    port = int(port)
    return host, port
```
-/

/-- Scan of the *reversed* address for the reversed separator `['/','/',':']`;
returns the (reversed) characters seen before the first match, i.e. the
(reversed) suffix of the original string after the *last* `"://"`.
Scanning the reversed string left-to-right finds the rightmost occurrence,
exactly as Python `rsplit` does; `"://"` cannot overlap itself. -/
def rsplitSchemeAux : List Char → Option (List Char)
  | a :: b :: c :: rest =>
    if a = '/' ∧ b = '/' ∧ c = ':' then some []
    else (rsplitSchemeAux (b :: c :: rest)).map (fun s => a :: s)
  | _ => none

/-- Suffix of `l` after the last occurrence of `"://"`, or `none` when the
separator does not occur (i.e. Python `'://' in address` is false). -/
def afterLastScheme (l : List Char) : Option (List Char) :=
  (rsplitSchemeAux l.reverse).map List.reverse

/-- Python line 54-55: `if '://' in address: address = address.rsplit('://', 1)[1]`. -/
def stripScheme (l : List Char) : List Char :=
  match afterLastScheme l with
  | some s => s
  | none => l

/-- Python `address.split(':')`: split on *every* colon. -/
def splitOnColon : List Char → List (List Char)
  | [] => [[]]
  | c :: rest =>
    if c = ':' then [] :: splitOnColon rest
    else
      match splitOnColon rest with
      | g :: gs => (c :: g) :: gs
      | [] => [[c]]

/-- Model of `parse_host_port`.  The tuple unpacking `host, port = address.split(':')`
raises `ValueError` unless the split yields exactly two pieces, and
`int(port)` raises `ValueError` on a non-numeric port; both are modelled
as `none` (the spec's `MalformedAddress`). -/
def parse_host_port (address : List Char) : Option (List Char × Int) :=
  let addr := stripScheme address
  match splitOnColon addr with
  | [host, port] => (pyInt port).map (fun n => (host, n))
  | _ => none

/-! ## Data model -/

/-- A materialized dask partition: its key (`str(part.key)`) and the edge
list it holds (source id, destination id).  Vertex ids are modelled as
unbounded `Int` (the Python ids are int64; overflow of `max+1` is not
reachable for realistic graphs and is not modelled). -/
structure Part where
  key : String
  data : List (Int × Int)
deriving DecidableEq

/-- Errors raised by `_get_mg_info`, named after the spec's taxonomy:
`noHolderFound` is `toolz.first` raising `StopIteration` on an empty
holder list, `malformedAddress` is `parse_host_port` raising
`ValueError`, `keyError` is a Python dict lookup `KeyError`,
`emptyData` stands for the degenerate `max()` of an empty column. -/
inductive Err where
  | noHolderFound
  | malformedAddress
  | keyError
  | emptyData
deriving DecidableEq

/-- Result of a blocking call with no timeout: either a value, or the
call never returns (the worker never answers). -/
inductive Blocking (α : Type) where
  | value (a : α)
  | blocked
deriving DecidableEq

/-- Overall outcome of a round: a normal return, a raised exception, or
an everlasting block inside the round. -/
inductive Outcome (α : Type) where
  | ok (a : α)
  | err (e : Err)
  | blocked

/-- Python `dict(pairs)[k]` as an `Option`: later pairs overwrite earlier
ones, hence the lookup scans the reversed list. -/
def pyDictGet {α β : Type} [DecidableEq α] (ps : List (α × β)) (k : α) : Option β :=
  (ps.reverse.find? (fun p => decide (p.1 = k))).map Prod.snd

/-! ## `get_rank` (lines 17-21)

```python
def get_rank(l):
    from mpi4py import MPI
    comm = MPI.COMM_WORLD
    rank = comm.Get_rank()
    return rank
```

`comm.Get_rank()` is ambient state of the process the task runs on; it is
passed to the model as `comm_rank`.  The argument `l` is the partition the
task was submitted with; the body never touches it. -/
def get_rank {α : Type} (comm_rank : Nat) (l : α) : Nat := comm_rank

/-- The `timeout` argument of the `Future.result()` call on line 83:
Python's default, `None` — no bound. -/
def rank_query_timeout : Option Nat := none

/-- Line 83: `[(client.submit(get_rank, p, workers=[worker]).result(), worker)
for p, worker in zip(parts, x)]`.  `rankOf w` is worker `w`'s answer —
`none` when `w` never answers, in which case `.result()` with
`rank_query_timeout = none` blocks forever. -/
def resolve_ranks (rankOf : List Char → Option Nat) :
    List (Part × List Char) → Blocking (List (Nat × List Char))
  | [] => .value []
  | (p, w) :: rest =>
    match rankOf w with
    | none => .blocked
    | some r =>
      match resolve_ranks rankOf rest with
      | .blocked => .blocked
      | .value tl => .value ((get_rank r p, w) :: tl)

/-- Lines 75-79: the `for key, workers in who_has.items()` loop.  Each
step takes `first(workers)` (raising on an empty holder list), parses it,
and looks the key up in `key_to_part_dict`. -/
def buildWorkerMap (keyToPart : String → Option Part) :
    List (String × List (List Char)) → Except Err (List ((List Char × Int) × Part))
  | [] => .ok []
  | (key, workers) :: rest =>
    match workers with
    | [] => .error .noHolderFound
    | w :: _ =>
      match parse_host_port w with
      | none => .error .malformedAddress
      | some hp =>
        match keyToPart key with
        | none => .error .keyError
        | some part =>
          match buildWorkerMap keyToPart rest with
          | .error e => .error e
          | .ok tl => .ok ((hp, part) :: tl)

/-- Lines 86-88: `for i, part in enumerate(parts):
parts_to_worker_map.append((part, rank_to_worker_dict[i]))` — the lookup
raises `KeyError` when index `i` is not a key of the rank dict. -/
def buildPartsToWorker (d : Nat → Option (List Char)) :
    List (Nat × Part) → Except Err (List (Part × List Char))
  | [] => .ok []
  | (i, part) :: rest =>
    match d i with
    | none => .error .keyError
    | some w =>
      match buildPartsToWorker d rest with
      | .error e => .error e
      | .ok tl => .ok ((part, w) :: tl)

/-- Maximum of one column partition (`none` for an empty column). -/
def colMaxOpt (l : List Int) : Option Int :=
  match l with
  | [] => none
  | x :: xs => some (xs.foldl max x)

/-- Combination of two optional column maxima (helper for stating how
`colMaxOpt` distributes over concatenation). -/
def omax : Option Int → Option Int → Option Int
  | none, b => b
  | some x, none => some x
  | some x, some y => some (max x y)

/-- dask's distributed `ddf[c].max().compute()`: reduce each partition,
then reduce the per-partition maxima. -/
def ddfColMax (cols : List (List Int)) : Option Int :=
  colMaxOpt (cols.filterMap colMaxOpt)

/-- Lines 91-93: `num_vertices = max(max_node_src_col, max_node_dest_col) + 1`,
each column maximum computed by dask over all partitions. -/
def num_vertices_calc (parts : List Part) : Option Int :=
  match ddfColMax (parts.map (fun p => p.data.map Prod.fst)),
        ddfColMax (parts.map (fun p => p.data.map Prod.snd)) with
  | some a, some b => some (max a b + 1)
  | _, _ => none

/-- Modelled from the spec (section 4.4 wording, for comparison with
`num_vertices_calc`): `max(max(col_src), max(col_dst)) + 1` computed over
the full unpartitioned dataset. -/
def specNumVertices (dataset : List (Int × Int)) : Option Int :=
  match colMaxOpt (dataset.map Prod.fst), colMaxOpt (dataset.map Prod.snd) with
  | some a, some b => some (max a b + 1)
  | _, _ => none

/-- Model of `dask.distributed.wait(futures)` with its default `ALL_COMPLETED`:
blocks until every future is finished (successfully or not), returns the
`(done, not_done)` pair with nothing left in flight, and never raises for
a future that finished in error. -/
def waitAll {α : Type} (hs : List α) : List α × List α := (hs, [])

/-- One dispatched compute request: `client.submit(_mg_pagerank, part,
num_vertices, workers=[worker])` — the partition, the global parameter,
and the worker the request is pinned to. -/
abbrev Submission := Part × Int × List Char

/-- Lines 60-97, `_get_mg_info(ddf)`.  Inputs from the scheduler
collaborator: `whoHas` — the `client.who_has(parts)` dict in iteration
order; `registry` — `x = list(client.has_what().keys())`; `rankOf` — each
worker's answer to the pinned `get_rank` task (`none` = never answers);
`outcome` — how each submitted `_mg_pagerank` future eventually resolves.
Returns the `gpu_futures` list (each submission paired with its resolved
outcome), or the exception/block that ended the round first.  The
sequencing mirrors the source: who_has loop (75-79), rank queries (83-84),
index lookups (86-88), column maxima (91-93), submission and `wait`
(95-96). -/
def _get_mg_info (parts : List Part) (whoHas : List (String × List (List Char)))
    (registry : List (List Char)) (rankOf : List Char → Option Nat)
    (outcome : Submission → Except String Unit) :
    Outcome (List (Submission × Except String Unit)) :=
  let key_to_part_dict := pyDictGet (parts.map (fun p => (p.key, p)))
  match buildWorkerMap key_to_part_dict whoHas with
  | .error e => .err e
  | .ok _worker_map =>
    match resolve_ranks rankOf (parts.zip registry) with
    | .blocked => .blocked
    | .value worker_ranks =>
      let rank_to_worker_dict := pyDictGet worker_ranks
      match buildPartsToWorker rank_to_worker_dict parts.enum with
      | .error e => .err e
      | .ok parts_to_worker_map =>
        match num_vertices_calc parts with
        | none => .err .emptyData
        | some num_vertices =>
          let gpu_futures := parts_to_worker_map.map
            (fun pw => ((pw.1, num_vertices, pw.2), outcome (pw.1, num_vertices, pw.2)))
          let _wres := waitAll gpu_futures
          .ok gpu_futures

/-- The claim's notion of a correct rank table: `table` restricted to
`{0, ..., K-1}` (K the number of participating workers) is a bijection
onto the participating workers. -/
def rankTableBijective (table : Nat → Option (List Char)) (workers : List (List Char)) : Prop :=
  (∀ r, r < workers.length → ∃ w, w ∈ workers ∧ table r = some w) ∧
  (∀ w, w ∈ workers → ∃! r, r < workers.length ∧ table r = some w)

/-! ## Concrete scenario used by counterexamples and witnesses -/

/-- Partition 0 of the two-partition example dataset. -/
def partA : Part := ⟨"k0", [(0, 1)]⟩

/-- Partition 1 of the two-partition example dataset. -/
def partB : Part := ⟨"k1", [(2, 3)]⟩

/-- Worker address holding `partA`. -/
def addrA : List Char := "tcp://A:1".data

/-- Worker address holding `partB`. -/
def addrB : List Char := "tcp://B:2".data

/-- The `who_has` report: `partA` lives on `addrA`, `partB` on `addrB`. -/
def whoHasAB : List (String × List (List Char)) := [("k0", [addrA]), ("k1", [addrB])]

/-- The scheduler registry, listing both workers. -/
def registryAB : List (List Char) := [addrA, addrB]

/-- Self-reported MPI ranks opposite to registry order: `addrA` is rank 1,
`addrB` is rank 0.  MPI rank order is independent of registry order. -/
def rankSwap : List Char → Option Nat :=
  fun w => if w = addrA then some 1 else some 0

/-- Self-reported MPI ranks in registry order. -/
def rankId : List Char → Option Nat :=
  fun w => if w = addrA then some 0 else some 1

/-- All compute tasks succeed. -/
def okOutcome : Submission → Except String Unit := fun _ => .ok ()

/-- The compute task on `partB` fails. -/
def boomOutcome : Submission → Except String Unit :=
  fun s => if s.1.key = "k1" then .error "boom" else .ok ()

/-- Degenerate self-reports: every worker answers rank 0 (what happens
when each dask worker initializes MPI on its own, outside `mpirun`). -/
def rankDup : List Char → Option Nat := fun _ => some 0

/-- The resolved handle list of the example round in which every compute
task succeeds. -/
def futsOkAB : List (Submission × Except String Unit) :=
  [((partA, 4, addrA), .ok ()), ((partB, 4, addrB), .ok ())]

/-! ## Lemmas about the address parser -/

lemma splitOnColon_ne_nil : ∀ l : List Char, splitOnColon l ≠ []
  | [] => by simp [splitOnColon]
  | c :: rest => by
    simp only [splitOnColon]
    split
    · simp
    · split <;> simp

lemma length_splitOnColon : ∀ l : List Char, (splitOnColon l).length = l.count ':' + 1 := by
  intro l
  induction l with
  | nil => simp [splitOnColon]
  | cons c rest ih =>
    by_cases hc : c = ':'
    · subst hc
      simp [splitOnColon, List.count_cons, ih]
    · simp only [splitOnColon, if_neg hc]
      cases hs : splitOnColon rest with
      | nil => exact absurd hs (splitOnColon_ne_nil rest)
      | cons g gs =>
        rw [hs] at ih
        simp only [List.length_cons] at ih ⊢
        simp [List.count_cons, hc, ih]

lemma splitOnColon_count_zero : ∀ l : List Char, l.count ':' = 0 → splitOnColon l = [l] := by
  intro l
  induction l with
  | nil => intro _; rfl
  | cons c rest ih =>
    intro h
    simp only [List.count_cons] at h
    have hc : ¬(c = ':') := by
      intro hc; subst hc; simp at h
    have hr : rest.count ':' = 0 := by
      rcases Nat.add_eq_zero.mp h with ⟨h1, _⟩
      exact h1
    simp only [splitOnColon, if_neg hc, ih hr]

lemma splitOnColon_count_one :
    ∀ l : List Char, l.count ':' = 1 →
      splitOnColon l =
        [l.takeWhile (fun c => c != ':'), (l.dropWhile (fun c => c != ':')).tail] := by
  intro l
  induction l with
  | nil => intro h; simp at h
  | cons c rest ih =>
    intro h
    by_cases hc : c = ':'
    · subst hc
      simp only [List.count_cons] at h
      have hr : rest.count ':' = 0 := by simpa using h
      simp [splitOnColon, splitOnColon_count_zero rest hr]
    · simp only [List.count_cons] at h
      have hr : rest.count ':' = 1 := by
        simpa [hc] using h
      simp only [splitOnColon, if_neg hc, ih hr]
      simp [List.takeWhile_cons, List.dropWhile_cons, hc]

lemma rsplitSchemeAux_cons3 (a b c : Char) (l : List Char) :
    rsplitSchemeAux (a :: b :: c :: l) =
      if a = '/' ∧ b = '/' ∧ c = ':' then some []
      else (rsplitSchemeAux (b :: c :: l)).map (fun s => a :: s) := rfl

lemma rsplitSchemeAux_append (rest : List Char) :
    ∀ m : List Char,
      rsplitSchemeAux (m ++ '/' :: '/' :: ':' :: rest) = some ((rsplitSchemeAux m).getD m) := by
  intro m
  induction m with
  | nil =>
    show rsplitSchemeAux ('/' :: '/' :: ':' :: rest) = some []
    rw [rsplitSchemeAux_cons3, if_pos ⟨rfl, rfl, rfl⟩]
  | cons a t ih =>
    cases t with
    | nil =>
      show rsplitSchemeAux (a :: '/' :: '/' :: ':' :: rest) = some ((rsplitSchemeAux [a]).getD [a])
      rw [rsplitSchemeAux_cons3]
      rw [if_neg (by rintro ⟨-, -, h⟩; exact absurd h (by decide))]
      have h0 : rsplitSchemeAux ('/' :: '/' :: ':' :: rest) = some [] := by
        rw [rsplitSchemeAux_cons3, if_pos ⟨rfl, rfl, rfl⟩]
      rw [h0]
      rfl
    | cons e1 t1 =>
      cases t1 with
      | nil =>
        show rsplitSchemeAux (a :: e1 :: '/' :: '/' :: ':' :: rest)
            = some ((rsplitSchemeAux [a, e1]).getD [a, e1])
        rw [rsplitSchemeAux_cons3]
        rw [if_neg (by rintro ⟨-, -, h⟩; exact absurd h (by decide))]
        have h1 : rsplitSchemeAux (e1 :: '/' :: '/' :: ':' :: rest) = some [e1] := ih
        rw [h1]
        rfl
      | cons e2 t2 =>
        show rsplitSchemeAux (a :: e1 :: e2 :: (t2 ++ '/' :: '/' :: ':' :: rest))
            = some ((rsplitSchemeAux (a :: e1 :: e2 :: t2)).getD (a :: e1 :: e2 :: t2))
        rw [rsplitSchemeAux_cons3]
        rw [rsplitSchemeAux_cons3 a e1 e2 t2]
        by_cases hcond : a = '/' ∧ e1 = '/' ∧ e2 = ':'
        · rw [if_pos hcond, if_pos hcond]
          rfl
        · rw [if_neg hcond, if_neg hcond]
          have ih' : rsplitSchemeAux (e1 :: e2 :: (t2 ++ '/' :: '/' :: ':' :: rest))
              = some ((rsplitSchemeAux (e1 :: e2 :: t2)).getD (e1 :: e2 :: t2)) := ih
          rw [ih']
          cases hs : rsplitSchemeAux (e1 :: e2 :: t2) with
          | none => simp [hs]
          | some s => simp [hs]

lemma stripScheme_append (l1 l2 : List Char) :
    stripScheme (l1 ++ ':' :: '/' :: '/' :: l2) = stripScheme l2 := by
  have h1 : (l1 ++ ':' :: '/' :: '/' :: l2).reverse
      = l2.reverse ++ '/' :: '/' :: ':' :: l1.reverse := by
    simp
  unfold stripScheme afterLastScheme
  rw [h1, rsplitSchemeAux_append]
  cases h : rsplitSchemeAux l2.reverse with
  | none => simp
  | some s => simp

/-! ## Lemmas about the global parameter aggregator -/

lemma foldl_max_init (xs : List Int) (a : Int) :
    ∀ b : Int, xs.foldl max (max a b) = max a (xs.foldl max b) := by
  induction xs with
  | nil => intro b; rfl
  | cons c xs ih =>
    intro b
    rw [List.foldl_cons, List.foldl_cons, max_assoc, ih]

lemma colMaxOpt_cons (x : Int) (l : List Int) :
    colMaxOpt (x :: l) = omax (some x) (colMaxOpt l) := by
  cases l with
  | nil => rfl
  | cons y ys => simp [colMaxOpt, omax, List.foldl_cons, foldl_max_init]

lemma omax_assoc (a b c : Option Int) : omax (omax a b) c = omax a (omax b c) := by
  cases a <;> cases b <;> cases c <;> simp [omax, max_assoc]

lemma colMaxOpt_append (l1 l2 : List Int) :
    colMaxOpt (l1 ++ l2) = omax (colMaxOpt l1) (colMaxOpt l2) := by
  induction l1 with
  | nil =>
    show colMaxOpt l2 = omax none (colMaxOpt l2)
    cases colMaxOpt l2 <;> rfl
  | cons x xs ih =>
    rw [List.cons_append, colMaxOpt_cons, ih, colMaxOpt_cons, omax_assoc]

lemma ddfColMax_eq_flatten (cols : List (List Int)) :
    ddfColMax cols = colMaxOpt cols.flatten := by
  induction cols with
  | nil => rfl
  | cons l ls ih =>
    cases hl : colMaxOpt l with
    | none =>
      cases l with
      | nil => simpa [ddfColMax, List.filterMap_cons, hl] using ih
      | cons x xs => simp [colMaxOpt] at hl
    | some m =>
      show colMaxOpt (List.filterMap colMaxOpt (l :: ls)) = colMaxOpt ((l :: ls).flatten)
      rw [List.filterMap_cons]
      simp only [hl]
      rw [colMaxOpt_cons]
      have hih : colMaxOpt (List.filterMap colMaxOpt ls) = colMaxOpt ls.flatten := ih
      rw [hih]
      rw [show (l :: ls).flatten = l ++ ls.flatten from rfl, colMaxOpt_append, hl]

lemma parse_host_port_match (l : List Char) :
    parse_host_port l =
      (match splitOnColon (stripScheme l) with
        | [host, port] => (pyInt port).map (fun n => (host, n))
        | _ => none) := rfl

/-- Claim C7 (counterexample).  The claim says the parser splits host and
port on the first colon from the right, yields a non-negative port, and
fails exactly when no colon is present or the port segment is non-numeric.
But on `"a:b:1"` — which contains colons, and whose rightmost-colon port
segment `"1"` is numeric — the parser fails (Python unpacking of a 3-way
split raises `ValueError`); and on `"h:-1"` it succeeds with the
*negative* port `-1` (Python `int` accepts a sign). -/
theorem parse_host_port_multicolon_and_negative :
    parse_host_port "a:b:1".data = none ∧ ':' ∈ "a:b:1".data ∧ pyInt "1".data = some 1 ∧
      parse_host_port "h:-1".data = some ("h".data, -1) ∧ (-1 : Int) < 0 := by
  decide

/-- Claim C7 (amended): after stripping everything up to the last `"://"`,
the parser requires the remainder to contain *exactly one* colon (the
split must yield exactly two pieces); it fails exactly when the colon
count differs from one or when the segment after the colon is not a valid
Python integer literal (which may be negative, since a sign is accepted). -/
theorem parse_host_port_failure_iff (l : List Char) :
    parse_host_port l = none ↔
      ((stripScheme l).count ':' ≠ 1 ∨
        pyInt (((stripScheme l).dropWhile (fun c => c != ':')).tail) = none) := by
  by_cases hcount : (stripScheme l).count ':' = 1
  · rw [parse_host_port_match, splitOnColon_count_one (stripScheme l) hcount]
    simp [hcount, Option.map_eq_none']
  · rw [parse_host_port_match]
    rcases hs : splitOnColon (stripScheme l) with - | ⟨x, - | ⟨y, - | ⟨z, tl3⟩⟩⟩
    · exact absurd hs (splitOnColon_ne_nil _)
    · simp [hcount]
    · exfalso
      have hlen := length_splitOnColon (stripScheme l)
      rw [hs] at hlen
      simp only [List.length_cons, List.length_nil] at hlen
      exact hcount (by omega)
    · simp [hcount]

/-- Claim C8: a well-formed `host:port` string parses to the same pair
with or without a `scheme://` prefix, because the scheme-stripping step
removes everything up to the last `"://"`. -/
theorem parse_host_port_scheme_invariant (scheme hp host : List Char) (port : Int)
    (h : parse_host_port hp = some (host, port)) :
    parse_host_port (scheme ++ ':' :: '/' :: '/' :: hp) = some (host, port) := by
  rw [parse_host_port_match, stripScheme_append, ← parse_host_port_match]
  exact h

/-- Claim C8 witness: the spec's own example, `"tcp://10.0.0.5:8786"` and
`"10.0.0.5:8786"` both parse to `("10.0.0.5", 8786)`. -/
theorem parse_host_port_scheme_invariant_witness :
    parse_host_port "10.0.0.5:8786".data = some ("10.0.0.5".data, 8786) ∧
      parse_host_port "tcp://10.0.0.5:8786".data = some ("10.0.0.5".data, 8786) := by
  have h : parse_host_port "10.0.0.5:8786".data = some ("10.0.0.5".data, 8786) := by decide
  exact ⟨h, parse_host_port_scheme_invariant "tcp".data "10.0.0.5:8786".data "10.0.0.5".data 8786 h⟩

lemma num_vertices_eq_spec (parts : List Part) :
    num_vertices_calc parts = specNumVertices ((parts.map Part.data).flatten) := by
  have hfst : (((parts.map Part.data).flatten).map Prod.fst : List Int)
      = (parts.map (fun p => p.data.map Prod.fst)).flatten := by
    rw [List.map_flatten, List.map_map]
    rfl
  have hsnd : (((parts.map Part.data).flatten).map Prod.snd : List Int)
      = (parts.map (fun p => p.data.map Prod.snd)).flatten := by
    rw [List.map_flatten, List.map_map]
    rfl
  unfold num_vertices_calc specNumVertices
  rw [ddfColMax_eq_flatten, ddfColMax_eq_flatten, hfst, hsnd]

/-- Claim C2: the `num_vertices` scalar computed on lines 91-93 equals
`max(max(col_src), max(col_dst)) + 1` over the full unpartitioned dataset
(the concatenation of the partitions), and is therefore identical for any
two partitionings of the same dataset. -/
theorem num_vertices_partition_invariant (parts1 parts2 : List Part)
    (h : (parts1.map Part.data).flatten = (parts2.map Part.data).flatten) :
    num_vertices_calc parts1 = specNumVertices ((parts1.map Part.data).flatten) ∧
      num_vertices_calc parts1 = num_vertices_calc parts2 := by
  refine ⟨num_vertices_eq_spec parts1, ?_⟩
  rw [num_vertices_eq_spec, num_vertices_eq_spec, h]

/-- Claim C2 witness: the dataset `[(0,1),(2,3)]` split into one partition
or into two yields the same scalar, the full-dataset formula value `4`. -/
theorem num_vertices_partition_invariant_witness :
    num_vertices_calc [(⟨"k", [(0, 1), (2, 3)]⟩ : Part)] =
        specNumVertices (([(⟨"k", [(0, 1), (2, 3)]⟩ : Part)].map Part.data).flatten) ∧
      num_vertices_calc [(⟨"k", [(0, 1), (2, 3)]⟩ : Part)] = num_vertices_calc [partA, partB] :=
  num_vertices_partition_invariant [(⟨"k", [(0, 1), (2, 3)]⟩ : Part)] [partA, partB] (by rfl)

/-! ## Lemmas about dictionaries, rank resolution and the dispatch loop -/

lemma find?_key_eq_of_nodup {β : Type} (l : List (Nat × β)) (k : Nat) (v : β)
    (hnd : (l.map Prod.fst).Nodup) (hmem : (k, v) ∈ l) :
    l.find? (fun p => decide (p.1 = k)) = some (k, v) := by
  induction l with
  | nil => simp at hmem
  | cons a l ih =>
    simp only [List.map_cons, List.nodup_cons] at hnd
    rcases List.mem_cons.mp hmem with heq | hmem'
    · subst heq
      exact List.find?_cons_of_pos _ (by simp)
    · have hka : ¬(a.1 = k) := by
        intro hak
        exact hnd.1 (hak ▸ (List.mem_map.mpr ⟨(k, v), hmem', rfl⟩))
      rw [List.find?_cons_of_neg _ (by simpa using hka)]
      exact ih hnd.2 hmem'

lemma pyDictGet_eq_some_iff {β : Type} [DecidableEq β] (l : List (Nat × β)) (k : Nat) (v : β)
    (hnd : (l.map Prod.fst).Nodup) :
    pyDictGet l k = some v ↔ (k, v) ∈ l := by
  constructor
  · intro h
    unfold pyDictGet at h
    rcases hf : l.reverse.find? (fun p => decide (p.1 = k)) with - | p
    · rw [hf] at h
      exact absurd h (by simp)
    · rw [hf] at h
      simp only [Option.map_some', Option.some.injEq] at h
      have hmem := List.mem_of_find?_eq_some hf
      have hkey : p.1 = k := by
        have := List.find?_some hf
        simpa using this
      have hp : p = (k, v) := Prod.ext_iff.mpr ⟨hkey, h⟩
      subst hp
      exact List.mem_reverse.mp hmem
  · intro hmem
    unfold pyDictGet
    have hnd' : (l.reverse.map Prod.fst).Nodup := by
      rw [List.map_reverse]
      exact List.nodup_reverse.mpr hnd
    rw [find?_key_eq_of_nodup l.reverse k v hnd' (List.mem_reverse.mpr hmem)]
    rfl

lemma resolve_ranks_value_spec (rankOf : List Char → Option Nat) :
    ∀ (l : List (Part × List Char)) (wr : List (Nat × List Char)),
      resolve_ranks rankOf l = .value wr →
      wr.map Prod.snd = l.map Prod.snd ∧ ∀ p ∈ wr, rankOf p.2 = some p.1 := by
  intro l
  induction l with
  | nil =>
    intro wr h
    cases h
    simp
  | cons pw rest ih =>
    intro wr h
    rcases pw with ⟨p, w⟩
    rcases hr : rankOf w with - | r
    · rw [resolve_ranks, hr] at h
      cases h
    · rw [resolve_ranks, hr] at h
      rcases ht : resolve_ranks rankOf rest with tl | -
      · rw [ht] at h
        cases h
        rcases ih tl ht with ⟨h1, h2⟩
        refine ⟨by simp [h1], ?_⟩
        intro q hq
        rcases List.mem_cons.mp hq with heq | hmem
        · subst heq; exact hr
        · exact h2 q hmem
      · rw [ht] at h
        cases h

lemma resolve_ranks_blocked_of_any (rankOf : List Char → Option Nat) :
    ∀ l : List (Part × List Char),
      (l.any (fun pw => (rankOf pw.2).isNone)) = true →
      resolve_ranks rankOf l = .blocked := by
  intro l
  induction l with
  | nil => intro h; simp at h
  | cons pw rest ih =>
    intro h
    rcases pw with ⟨p, w⟩
    rcases hr : rankOf w with - | r
    · rw [resolve_ranks, hr]
    · rw [resolve_ranks, hr]
      have hrest : rest.any (fun pw => (rankOf pw.2).isNone) = true := by
        simp only [List.any_cons, Bool.or_eq_true] at h
        rcases h with h | h
        · rw [hr] at h; simp at h
        · exact h
      rw [ih hrest]

lemma resolve_ranks_value_length (rankOf : List Char → Option Nat) :
    ∀ (l : List (Part × List Char)) (wr : List (Nat × List Char)),
      resolve_ranks rankOf l = .value wr → wr.length = l.length := by
  intro l wr h
  have := (resolve_ranks_value_spec rankOf l wr h).1
  calc wr.length = (wr.map Prod.snd).length := by simp
    _ = (l.map Prod.snd).length := by rw [this]
    _ = l.length := by simp

lemma buildPartsToWorker_map_fst (d : Nat → Option (List Char)) :
    ∀ (l : List (Nat × Part)) (res : List (Part × List Char)),
      buildPartsToWorker d l = .ok res → res.map Prod.fst = l.map Prod.snd := by
  intro l
  induction l with
  | nil =>
    intro res h
    cases h
    simp
  | cons ip rest ih =>
    intro res h
    rcases ip with ⟨i, part⟩
    rcases hd : d i with - | w
    · rw [buildPartsToWorker, hd] at h
      cases h
    · rw [buildPartsToWorker, hd] at h
      rcases ht : buildPartsToWorker d rest with e | tl
      · rw [ht] at h; cases h
      · rw [ht] at h
        cases h
        simp [ih tl ht]

lemma buildPartsToWorker_pins (d : Nat → Option (List Char)) :
    ∀ (l : List (Nat × Part)) (res : List (Part × List Char)),
      buildPartsToWorker d l = .ok res →
      ∀ pr ∈ l.zip res, d pr.1.1 = some pr.2.2 ∧ pr.2.1 = pr.1.2 := by
  intro l
  induction l with
  | nil =>
    intro res h pr hpr
    simp at hpr
  | cons ip rest ih =>
    intro res h pr hpr
    rcases ip with ⟨i, part⟩
    rcases hd : d i with - | w
    · rw [buildPartsToWorker, hd] at h
      cases h
    · rw [buildPartsToWorker, hd] at h
      rcases ht : buildPartsToWorker d rest with e | tl
      · rw [ht] at h; cases h
      · rw [ht] at h
        cases h
        rcases List.mem_cons.mp hpr with heq | hmem
        · subst heq; exact ⟨hd, rfl⟩
        · exact ih tl ht pr hmem

lemma buildPartsToWorker_fail (d : Nat → Option (List Char)) :
    ∀ l : List (Nat × Part),
      (∃ ip ∈ l, d ip.1 = none) → buildPartsToWorker d l = .error .keyError := by
  intro l
  induction l with
  | nil =>
    rintro ⟨ip, hip, -⟩
    simp at hip
  | cons jp rest ih =>
    rintro ⟨ip, hip, hnone⟩
    rcases jp with ⟨i, part⟩
    rcases hd : d i with - | w
    · rw [buildPartsToWorker, hd]
    · rw [buildPartsToWorker, hd]
      have hrest : ∃ ip ∈ rest, d ip.1 = none := by
        rcases List.mem_cons.mp hip with heq | hmem
        · subst heq; rw [hd] at hnone; cases hnone
        · exact ⟨ip, hmem, hnone⟩
      rw [ih hrest]

lemma buildWorkerMap_noholder (keyToPart : String → Option Part) :
    ∀ wh : List (String × List (List Char)),
      (∃ e ∈ wh, e.2 = []) →
      (∀ e ∈ wh, e.2 = [] ∨ ∃ w tl hp part,
        e.2 = w :: tl ∧ parse_host_port w = some hp ∧ keyToPart e.1 = some part) →
      buildWorkerMap keyToPart wh = .error .noHolderFound := by
  intro wh
  induction wh with
  | nil =>
    rintro ⟨e, he, -⟩ -
    simp at he
  | cons kw rest ih =>
    rintro ⟨e, he, hemp⟩ hok
    rcases kw with ⟨key, workers⟩
    rcases workers with - | ⟨w, tl⟩
    · rw [buildWorkerMap]
    · rcases hok (key, w :: tl) (List.mem_cons_self _ _) with habs | ⟨w', tl', hp, part, heq, hparse, hkey⟩
      · cases habs
      · injection heq with hw htl
        subst hw
        rw [buildWorkerMap, hparse, hkey]
        have hrest : buildWorkerMap keyToPart rest = .error .noHolderFound := by
          refine ih ⟨e, ?_, hemp⟩ (fun e' he' => hok e' (List.mem_cons_of_mem _ he'))
          rcases List.mem_cons.mp he with heq' | hmem
          · subst heq'; cases hemp
          · exact hmem
        rw [hrest]

lemma enumFrom_snd {α : Type} : ∀ (n : Nat) (l : List α), (List.enumFrom n l).map Prod.snd = l
  | _, [] => rfl
  | n, a :: l => by
    rw [List.enumFrom, List.map_cons, enumFrom_snd (n + 1) l]

lemma enum_snd {α : Type} (l : List α) : l.enum.map Prod.snd = l := enumFrom_snd 0 l

lemma resolve_ranks_data_irrelevant (rankOf : List Char → Option Nat) :
    ∀ (parts parts2 : List Part) (registry : List (List Char)),
      parts.length = parts2.length →
      resolve_ranks rankOf (parts.zip registry) = resolve_ranks rankOf (parts2.zip registry)
  | [], [], _, _ => rfl
  | [], _ :: _, _, h => by simp at h
  | _ :: _, [], _, h => by simp at h
  | _ :: _, _ :: _, [], _ => rfl
  | p :: ps, q :: qs, w :: ws, h => by
    have hlen : ps.length = qs.length := by simpa using h
    show resolve_ranks rankOf ((p, w) :: ps.zip ws) = resolve_ranks rankOf ((q, w) :: qs.zip ws)
    rw [resolve_ranks, resolve_ranks, resolve_ranks_data_irrelevant rankOf ps qs ws hlen]
    rfl

/-! ## Claims about `_get_mg_info` -/

/-- Claim C3: in a round where some partition's data-location entry
reports zero holders (and the other entries are resolvable, as a healthy
scheduler guarantees), `toolz.first` raises inside the lines 75-79 loop:
the round fails with the spec's `NoHolderFound`, the error propagates
(the result is the error, not a truncated dispatch list), and since the
loop runs before lines 91-95 no GlobalParameters computation and no
`_mg_pagerank` submission occurs. -/
theorem zero_holders_fails_no_holder_found (parts : List Part)
    (whoHas : List (String × List (List Char))) (registry : List (List Char))
    (rankOf : List Char → Option Nat) (outcome : Submission → Except String Unit)
    (hsome : ∃ e ∈ whoHas, e.2 = [])
    (hok : ∀ e ∈ whoHas, e.2 = [] ∨ ∃ w tl hp part,
      e.2 = w :: tl ∧ parse_host_port w = some hp ∧
        pyDictGet (parts.map (fun p => (p.key, p))) e.1 = some part) :
    _get_mg_info parts whoHas registry rankOf outcome = .err .noHolderFound := by
  have hb := buildWorkerMap_noholder (pyDictGet (parts.map (fun p => (p.key, p)))) whoHas hsome hok
  simp only [_get_mg_info]
  rw [hb]

/-- Claim C3 witness: a concrete round where the second partition has no
holder fails with `NoHolderFound`. -/
theorem zero_holders_fails_no_holder_found_witness :
    _get_mg_info [partA, partB] [("k0", [addrA]), ("k1", [])] registryAB rankId okOutcome =
      .err .noHolderFound := by
  refine zero_holders_fails_no_holder_found _ _ _ _ _ ⟨("k1", []), by decide, rfl⟩ ?_
  intro e he
  rcases List.mem_cons.mp he with h1 | he2
  · subst h1
    right
    exact ⟨addrA, [], ("A".data, 1), partA, rfl, by decide, by decide⟩
  · rcases List.mem_cons.mp he2 with h2 | h3
    · subst h2
      left
      rfl
    · simp at h3

/-- Claim C10: dispatch requires the self-reported ranks to cover every
partition index.  If who_has resolution and the rank queries succeed but
some index `i < len(parts)` is missing from `rank_to_worker_dict`, the
line-88 lookup raises `KeyError`, which ends the round before any
`_mg_pagerank` submission (line 95).  The rank dict is built by zipping
`parts` against the registry, so it has `min(len(parts), len(registry))`
entries — fewer registered workers than partitions always trips this. -/
theorem dispatch_requires_full_rank_cover (parts : List Part)
    (whoHas : List (String × List (List Char))) (registry : List (List Char))
    (rankOf : List Char → Option Nat) (outcome : Submission → Except String Unit)
    (wm : List ((List Char × Int) × Part)) (wr : List (Nat × List Char))
    (h1 : buildWorkerMap (pyDictGet (parts.map (fun p => (p.key, p)))) whoHas = .ok wm)
    (h2 : resolve_ranks rankOf (parts.zip registry) = .value wr)
    (h3 : ∃ ip ∈ parts.enum, pyDictGet wr ip.1 = none) :
    _get_mg_info parts whoHas registry rankOf outcome = .err .keyError ∧
      wr.length = min parts.length registry.length := by
  constructor
  · have hb := buildPartsToWorker_fail (pyDictGet wr) parts.enum h3
    simp only [_get_mg_info, h1, h2, hb]
  · rw [resolve_ranks_value_length rankOf _ wr h2, List.length_zip]

/-- Claim C10 witness: two partitions but a single registered worker; the
zip gives the rank dict a single entry, index 1 is missing, and the round
fails with `KeyError` before dispatch. -/
theorem dispatch_requires_full_rank_cover_witness :
    _get_mg_info [partA, partB] whoHasAB [addrA] rankId okOutcome = .err .keyError ∧
      ([((0 : Nat), addrA)] : List (Nat × List Char)).length =
        min [partA, partB].length [addrA].length :=
  dispatch_requires_full_rank_cover [partA, partB] whoHasAB [addrA] rankId okOutcome
    [(("A".data, 1), partA), (("B".data, 2), partB)] [(0, addrA)]
    (by rfl) (by rfl) ⟨(1, partB), by decide, by rfl⟩

/-- Claim C5 (counterexample).  The claim says the rank self-report has an
explicit timeout bound and an unresponsive worker makes the round fail
with `RankResolutionTimeout`.  But `.result()` on line 83 is called with
Python's default `timeout=None`, and with a worker that never answers the
round blocks forever instead of failing. -/
theorem rank_query_blocks_forever :
    rank_query_timeout = none ∧
      _get_mg_info [partA, partB] whoHasAB registryAB (fun _ => none) okOutcome = .blocked :=
  ⟨rfl, rfl⟩

/-- Claim C5 (amended): no timeout is set on the rank self-report
(`rank_query_timeout = none`); whenever any zipped worker never answers,
the round blocks indefinitely rather than failing with any timeout error. -/
theorem rank_query_has_no_timeout (parts : List Part)
    (whoHas : List (String × List (List Char))) (registry : List (List Char))
    (rankOf : List Char → Option Nat) (outcome : Submission → Except String Unit)
    (wm : List ((List Char × Int) × Part))
    (h1 : buildWorkerMap (pyDictGet (parts.map (fun p => (p.key, p)))) whoHas = .ok wm)
    (h2 : (parts.zip registry).any (fun pw => (rankOf pw.2).isNone) = true) :
    rank_query_timeout = none ∧
      _get_mg_info parts whoHas registry rankOf outcome = .blocked := by
  refine ⟨rfl, ?_⟩
  simp only [_get_mg_info, h1, resolve_ranks_blocked_of_any rankOf _ h2]

/-- Claim C5 witness: a single unresponsive worker blocks the round. -/
theorem rank_query_has_no_timeout_witness :
    rank_query_timeout = none ∧
      _get_mg_info [partA] [("k0", [addrA])] [addrA] (fun _ => none) okOutcome = .blocked :=
  rank_query_has_no_timeout [partA] [("k0", [addrA])] [addrA] (fun _ => none) okOutcome
    [(("A".data, 1), partA)] (by rfl) (by rfl)

/-- Claim C4 (counterexample).  The claim says the barrier surfaces an
aggregate error identifying the failing partitions.  But `wait` never
raises: with the `partB` task failing, `_get_mg_info` returns normally
(`.ok`) and the failure sits inside the returned handle list, unexamined. -/
theorem barrier_returns_failed_future_without_error :
    _get_mg_info [partA, partB] whoHasAB registryAB rankId boomOutcome =
      .ok [((partA, 4, addrA), .ok ()), ((partB, 4, addrB), .error "boom")] :=
  rfl

/-- Claim C4 (amended): the barrier blocks until every handle resolves —
after `wait` nothing is left in flight and the function returns one
already-resolved handle per partition — but it surfaces no error at all:
even failed handles are returned inside the `.ok` result, and callers
must inspect them to learn which partitions failed. -/
theorem barrier_waits_all_returns_handles (parts : List Part)
    (whoHas : List (String × List (List Char))) (registry : List (List Char))
    (rankOf : List Char → Option Nat) (outcome : Submission → Except String Unit)
    (futs : List (Submission × Except String Unit))
    (h : _get_mg_info parts whoHas registry rankOf outcome = .ok futs) :
    futs.map (fun f => f.1.1) = parts ∧
      futs.map Prod.snd = futs.map (fun f => outcome f.1) ∧
      waitAll futs = (futs, []) := by
  rcases hbw : buildWorkerMap (pyDictGet (parts.map (fun p => (p.key, p)))) whoHas with e | wm
  · have hval : _get_mg_info parts whoHas registry rankOf outcome = .err e := by
      simp only [_get_mg_info, hbw]
    rw [hval] at h
    exact Outcome.noConfusion h
  · rcases hrr : resolve_ranks rankOf (parts.zip registry) with wr | -
    · rcases hbp : buildPartsToWorker (pyDictGet wr) parts.enum with e2 | ptw
      · have hval : _get_mg_info parts whoHas registry rankOf outcome = .err e2 := by
          simp only [_get_mg_info, hbw, hrr, hbp]
        rw [hval] at h
        exact Outcome.noConfusion h
      · rcases hnv : num_vertices_calc parts with - | nv
        · have hval : _get_mg_info parts whoHas registry rankOf outcome = .err .emptyData := by
            simp only [_get_mg_info, hbw, hrr, hbp, hnv]
          rw [hval] at h
          exact Outcome.noConfusion h
        · have hval : _get_mg_info parts whoHas registry rankOf outcome =
              .ok (ptw.map (fun pw => ((pw.1, nv, pw.2), outcome (pw.1, nv, pw.2)))) := by
            simp only [_get_mg_info, hbw, hrr, hbp, hnv]
          rw [hval] at h
          have hfuts : futs = ptw.map
              (fun pw => ((pw.1, nv, pw.2), outcome (pw.1, nv, pw.2))) := by
            injection h with h1
            exact h1.symm
          subst hfuts
          refine ⟨?_, ?_, rfl⟩
          · rw [List.map_map]
            have hfst := buildPartsToWorker_map_fst (pyDictGet wr) parts.enum ptw hbp
            have hcomp : ((fun (f : Submission × Except String Unit) => f.1.1) ∘
                (fun pw : Part × List Char => ((pw.1, nv, pw.2), outcome (pw.1, nv, pw.2))))
                = Prod.fst := rfl
            rw [hcomp, hfst]
            exact enum_snd parts
          · rw [List.map_map, List.map_map]
            rfl
    · have hval : _get_mg_info parts whoHas registry rankOf outcome = .blocked := by
        simp only [_get_mg_info, hbw, hrr]
      rw [hval] at h
      exact Outcome.noConfusion h

/-- Claim C4 witness: with every task succeeding, the returned handles
cover both partitions, carry their resolved outcomes, and nothing is left
in flight after the barrier. -/
theorem barrier_waits_all_returns_handles_witness :
    futsOkAB.map (fun f => f.1.1) = [partA, partB] ∧
      futsOkAB.map Prod.snd = futsOkAB.map (fun f => okOutcome f.1) ∧
      waitAll futsOkAB = (futsOkAB, []) :=
  barrier_waits_all_returns_handles [partA, partB] whoHasAB registryAB rankId okOutcome
    futsOkAB (by rfl)

/-- Claim C1 (failing evaluation).  The LocalityMap built from who_has
(lines 75-79) records `partA` on `("A", 1)` — the parse of `addrA` — but
the dispatched tasks (line 95) are pinned via `rank_to_worker_dict`: with
MPI ranks opposite to registry order, the compute task carrying `partA`
is pinned to `addrB`, which parses to `("B", 2) ≠ ("A", 1)`.  The
`worker_map` holding the locality information is computed and never used
for dispatch. -/
theorem dispatch_ignores_locality_map :
    _get_mg_info [partA, partB] whoHasAB registryAB rankSwap okOutcome =
        .ok [((partA, 4, addrB), .ok ()), ((partB, 4, addrA), .ok ())] ∧
      buildWorkerMap (pyDictGet ([partA, partB].map (fun p => (p.key, p)))) whoHasAB =
        .ok [(("A".data, 1), partA), (("B".data, 2), partB)] ∧
      parse_host_port addrB = some ("B".data, 2) ∧
      (("B".data, (2 : Int)) ≠ ("A".data, 1)) :=
  ⟨rfl, rfl, by decide, by decide⟩

/-- Claim C1 (amended): each compute task is submitted with its partition
and the global parameter as arguments, but pinned to
`rank_to_worker_dict[i]` — the worker whose self-reported rank equals the
partition's position in `parts` — not to the worker recorded in the
LocalityMap for that partition. -/
theorem dispatch_pins_by_rank_index (parts : List Part)
    (whoHas : List (String × List (List Char))) (registry : List (List Char))
    (rankOf : List Char → Option Nat) (outcome : Submission → Except String Unit)
    (wm : List ((List Char × Int) × Part)) (wr : List (Nat × List Char))
    (ptw : List (Part × List Char)) (nv : Int)
    (h1 : buildWorkerMap (pyDictGet (parts.map (fun p => (p.key, p)))) whoHas = .ok wm)
    (h2 : resolve_ranks rankOf (parts.zip registry) = .value wr)
    (h3 : buildPartsToWorker (pyDictGet wr) parts.enum = .ok ptw)
    (h4 : num_vertices_calc parts = some nv) :
    _get_mg_info parts whoHas registry rankOf outcome =
        .ok (ptw.map (fun pw => ((pw.1, nv, pw.2), outcome (pw.1, nv, pw.2)))) ∧
      ∀ pr ∈ parts.enum.zip ptw, pyDictGet wr pr.1.1 = some pr.2.2 ∧ pr.2.1 = pr.1.2 := by
  constructor
  · simp only [_get_mg_info, h1, h2, h3, h4]
  · exact buildPartsToWorker_pins (pyDictGet wr) parts.enum ptw h3

/-- Claim C1 witness: in the swapped-rank round, dispatch follows the rank
dict — `partA` (index 0) goes to the worker that reported rank 0, namely
`addrB`. -/
theorem dispatch_pins_by_rank_index_witness :
    _get_mg_info [partA, partB] whoHasAB registryAB rankSwap okOutcome =
        .ok ([(partA, addrB), (partB, addrA)].map
          (fun pw => ((pw.1, 4, pw.2), okOutcome (pw.1, 4, pw.2)))) ∧
      ∀ pr ∈ [partA, partB].enum.zip [(partA, addrB), (partB, addrA)],
        pyDictGet [((1 : Nat), addrA), (0, addrB)] pr.1.1 = some pr.2.2 ∧ pr.2.1 = pr.1.2 :=
  dispatch_pins_by_rank_index [partA, partB] whoHasAB registryAB rankSwap okOutcome
    [(("A".data, 1), partA), (("B".data, 2), partB)] [(1, addrA), (0, addrB)]
    [(partA, addrB), (partB, addrA)] 4 (by rfl) (by rfl) (by rfl) (by rfl)

/-- Claim C6 (counterexample).  Nothing enforces that self-reports are a
bijection: when both workers report rank 0 (each initialized MPI on its
own), the rank table collapses — `dict` keeps the last pair — and rank 1
is unassigned, so the table is not a bijection onto `{0, 1}`. -/
theorem rank_table_not_bijective_on_duplicate_reports :
    resolve_ranks rankDup ([partA, partB].zip registryAB) = .value [(0, addrA), (0, addrB)] ∧
      ¬ rankTableBijective (pyDictGet [(0, addrA), (0, addrB)]) [addrA, addrB] := by
  refine ⟨rfl, ?_⟩
  intro hbij
  rcases hbij.1 1 (by decide) with ⟨w, hw, htable⟩
  rw [show pyDictGet [((0 : Nat), addrA), (0, addrB)] 1 = none from rfl] at htable
  cases htable

/-- Claim C6 (amended): the rank table is a bijection between the zipped
participating workers and `{0, ..., K-1}` only under the unenforced
precondition that the K self-reported ranks are pairwise distinct and all
below K; the code itself never validates this. -/
theorem rank_table_bijective_of_distinct_inrange (rankOf : List Char → Option Nat)
    (parts : List Part) (registry : List (List Char)) (wr : List (Nat × List Char))
    (hwr : resolve_ranks rankOf (parts.zip registry) = .value wr)
    (hnd : (wr.map Prod.fst).Nodup)
    (hlt : ∀ p ∈ wr, p.1 < wr.length) :
    rankTableBijective (pyDictGet wr) (wr.map Prod.snd) := by
  have hspec := (resolve_ranks_value_spec rankOf _ wr hwr).2
  have hkey_unique : ∀ p q, p ∈ wr → q ∈ wr → p.2 = q.2 → p.1 = q.1 := by
    intro p q hp hq h2
    have hsp := hspec p hp
    have hsq := hspec q hq
    rw [h2, hsq] at hsp
    exact (Option.some.inj hsp).symm
  have hlookup : ∀ (k : Nat) (w : List Char), pyDictGet wr k = some w ↔ (k, w) ∈ wr :=
    fun k w => pyDictGet_eq_some_iff wr k w hnd
  constructor
  · intro r hr
    have hrlen : r < wr.length := by simpa using hr
    have hkeys : r ∈ wr.map Prod.fst := by
      have hsub : (wr.map Prod.fst).toFinset ⊆ Finset.range wr.length := by
        intro x hx
        rw [List.mem_toFinset] at hx
        rcases List.mem_map.mp hx with ⟨p, hp, hxp⟩
        rw [Finset.mem_range, ← hxp]
        exact hlt p hp
      have hcard : (wr.map Prod.fst).toFinset.card = wr.length := by
        rw [List.toFinset_card_of_nodup hnd]
        simp
      have heq : (wr.map Prod.fst).toFinset = Finset.range wr.length :=
        Finset.eq_of_subset_of_card_le hsub (by rw [hcard, Finset.card_range])
      have hmem : r ∈ (wr.map Prod.fst).toFinset := by
        rw [heq, Finset.mem_range]
        exact hrlen
      exact List.mem_toFinset.mp hmem
    rcases List.mem_map.mp hkeys with ⟨p, hp, hpk⟩
    refine ⟨p.2, List.mem_map.mpr ⟨p, hp, rfl⟩, ?_⟩
    rw [hlookup, ← hpk]
    simpa using hp
  · intro w hw
    rcases List.mem_map.mp hw with ⟨p, hp, hpw⟩
    refine ⟨p.1, ⟨by simpa using hlt p hp, ?_⟩, ?_⟩
    · rw [hlookup, ← hpw]
      simpa using hp
    · rintro r2 ⟨-, hr2⟩
      rw [hlookup] at hr2
      exact (hkey_unique p (r2, w) hp hr2 (by rw [hpw])).symm

/-- Claim C6 witness: with two workers reporting the distinct in-range
ranks 1 and 0, the table is a bijection onto `{0, 1}`. -/
theorem rank_table_bijective_of_distinct_inrange_witness :
    rankTableBijective (pyDictGet [((1 : Nat), addrA), (0, addrB)]) [addrA, addrB] :=
  rank_table_bijective_of_distinct_inrange rankSwap [partA, partB] registryAB
    [(1, addrA), (0, addrB)] (by rfl) (by decide) (by decide)

/-- Claim C9: `get_rank` never reads its data argument — its value is the
ambient MPI rank of the hosting process — so two rank queries on the same
worker agree regardless of the partition passed, and the whole rank table
is unchanged when the partition list is swapped for any other of the same
length. -/
theorem get_rank_ignores_argument {α : Type} (r : Nat) (l1 l2 : α)
    (rankOf : List Char → Option Nat) (parts parts2 : List Part)
    (registry : List (List Char)) (h : parts.length = parts2.length) :
    get_rank r l1 = get_rank r l2 ∧
      resolve_ranks rankOf (parts.zip registry) = resolve_ranks rankOf (parts2.zip registry) :=
  ⟨rfl, resolve_ranks_data_irrelevant rankOf parts parts2 registry h⟩

/-- Claim C9 witness: swapping which partition rides along with the rank
query changes nothing. -/
theorem get_rank_ignores_argument_witness :
    get_rank 5 partA = get_rank 5 partB ∧
      resolve_ranks rankId ([partA].zip registryAB) = resolve_ranks rankId ([partB].zip registryAB) :=
  get_rank_ignores_argument 5 partA partB rankId [partA] [partB] registryAB (by rfl)

end DaskCugraph
